import Mathlib

/-!
Shallow embedding of the tensor memory-allocation and weight-persistence
subsystem of the gemma_manager repository.

Sources embedded:
- src/gemma_manager/gemma_src/util/allocator.h
  (Allocator geometry, Alloc, StrideForCyclicOffsets, RowPtr)
- src/gemma_manager/gemma_src/gemma/weights.cc
  (ModelWeightsStorage: Load, Allocate, RandInit, CreateForType;
   LayerWeightsPtrs of NuqStream: Reshape)

Conventions:
- size_t arithmetic is Nat with explicit reduction modulo 2 to the 64 where
  the code can overflow (Alloc).
- Pointers are addresses: Int where an address below the buffer start must
  be representable (RowPtr row addresses), measured in element units,
  exactly as the pointer arithmetic in the source operates on typed T
  pointers.
- External collaborators that live outside src/ (the blob-store codec, the
  weights.h tensor containers, allocator.cc) are modelled from the spec;
  each such definition carries a doc comment saying so.
-/

namespace GemmaManager

/-- Allocator geometry as established by Allocator::Init: StepBytes and
QuantumBytes. QuantumSteps is derived as in the source. The other readers
(LineBytes, VectorBytes, cache sizes) are not needed by the claims. -/
structure Geometry where
  stepBytes : Nat
  quantumBytes : Nat
  deriving DecidableEq, Repr

/-- Allocator::QuantumSteps() = QuantumBytes() / StepBytes(). -/
def Geometry.quantumSteps (g : Geometry) : Nat := g.quantumBytes / g.stepBytes

/-- Allocator::MaxQuantumBytes(): compile-time upper bound on QuantumBytes. -/
def MaxQuantumBytes : Nat := 4096

/-- Constraints the real geometry satisfies after Allocator::Init: a
positive step, a quantum that is a multiple of the step and bounded by
MaxQuantumBytes, and a power-of-two quantum-steps count (both sizes are
powers of two in hardware; RowPtr masks row indices with quantumSteps - 1,
which is a modulus only for powers of two). -/
def ValidGeometry (g : Geometry) : Prop :=
  0 < g.stepBytes ∧ g.stepBytes ∣ g.quantumBytes ∧
    g.quantumBytes ≤ MaxQuantumBytes ∧ ∃ k, g.quantumSteps = 2 ^ k

/-- hwy::RoundUpTo(what, align): round what up to a multiple of align. -/
def RoundUpTo (what align : Nat) : Nat := ((what + align - 1) / align) * align

/-- StrideForCyclicOffsets from util/allocator.h, parameterized by
sizeof(T): quantum = MaxQuantumBytes / sizeof(T) elements; result is cols
rounded up to the quantum plus one more quantum. -/
def StrideForCyclicOffsets (sizeT cols : Nat) : Nat :=
  RoundUpTo cols (MaxQuantumBytes / sizeT) + MaxQuantumBytes / sizeT

/-- size_t has 64 bits; products reduce modulo this bound. -/
def sizeTLimit : Nat := 2 ^ 64

/-- Owning aligned buffer: the address and the byte count recorded for the
deleter. Ownership strategy is not needed by the claims. -/
structure AlignedBuffer where
  addr : Nat
  bytes : Nat
  deriving DecidableEq, Repr

/-- Modelled from the spec: Allocator::AllocBytes is implemented in
allocator.cc, which is not under src/. Per the spec, Alloc returns a
quantum-aligned owning handle whose byte size is an exact multiple of
quantum bytes and at least the requested size. -/
def Allocator.AllocBytes (g : Geometry) (bytes : Nat) : AlignedBuffer :=
  { addr := g.quantumBytes, bytes := RoundUpTo bytes g.quantumBytes }

/-- Allocator::Alloc of sizeof(T) = sizeT and num elements. The source
computes bytes = num * sizeof(T) in size_t (for power-of-two sizes via a
shift, which agrees with the product), recomputes check = bytes /
sizeof(T) (or a right shift, again the same value) and returns an empty
handle when check differs from num, i.e. when the product overflowed. -/
def Allocator.Alloc (g : Geometry) (sizeT num : Nat) : Option AlignedBuffer :=
  let bytes := (num * sizeT) % sizeTLimit
  let check := bytes / sizeT
  if check ≠ num then none
  else some (Allocator.AllocBytes g bytes)

/-- RowPtr fields from util/allocator.h: row0 pointer (an address in
element units), stride, cached step, column count, row-index mask. -/
structure RowPtr where
  row0 : Int
  stride : Nat
  step : Nat
  cols : Nat
  rowMask : Nat
  deriving DecidableEq, Repr

/-- The RowPtr constructor. It caches step = Allocator::StepBytes() and
sets rowMask = Allocator::QuantumSteps() - 1; in debug builds only
(HWY_IS_DEBUG_BUILD), a stride below StrideForCyclicOffsets(cols) resets
the mask to 0, disabling cyclic offsets. -/
def RowPtr.make (g : Geometry) (sizeT : Nat) (debugBuild : Bool) (row0 : Int)
    (cols stride : Nat) : RowPtr :=
  { row0 := row0, stride := stride, step := g.stepBytes, cols := cols,
    rowMask :=
      if debugBuild = true ∧ stride < StrideForCyclicOffsets sizeT cols then 0
      else g.quantumSteps - 1 }

/-- RowPtr::Row(r): pad = (r AND rowMask) * step, address row0 + stride *
r - pad. -/
def RowPtr.Row (p : RowPtr) (r : Nat) : Int :=
  p.row0 + (p.stride * r : Nat) - ((r &&& p.rowMask) * p.step : Nat)

/-- RowPtr::View(r, c, cols): constructs RowPtr(Row(r) + c, cols, stride);
the constructor rereads the geometry, hence the extra arguments. -/
def RowPtr.View (g : Geometry) (sizeT : Nat) (debugBuild : Bool) (p : RowPtr)
    (r c w : Nat) : RowPtr :=
  RowPtr.make g sizeT debugBuild (p.Row r + (c : Nat)) w p.stride


theorem le_roundUpTo (n a : Nat) (ha : 0 < a) : n ≤ RoundUpTo n a := by
  unfold RoundUpTo
  have h := Nat.div_add_mod' (n + a - 1) a
  have hm : (n + a - 1) % a < a := Nat.mod_lt _ ha
  omega

theorem dvd_roundUpTo (n a : Nat) : a ∣ RoundUpTo n a :=
  Dvd.intro_left _ rfl

theorem quantumBytes_pos (g : Geometry) (hg : ValidGeometry g) :
    0 < g.quantumBytes := by
  obtain ⟨hstep, hdvd, hle, k, hk⟩ := hg
  by_contra h
  have h0 : g.quantumBytes = 0 := by omega
  have : g.quantumSteps = 0 := by
    unfold Geometry.quantumSteps
    simp [h0]
  have := Nat.pos_pow_of_pos k (by norm_num : 0 < 2)
  omega

theorem quantumSteps_mul_step (g : Geometry) (hg : ValidGeometry g) :
    g.quantumSteps * g.stepBytes = g.quantumBytes := by
  obtain ⟨hstep, hdvd, hle, k, hk⟩ := hg
  unfold Geometry.quantumSteps
  exact Nat.div_mul_cancel hdvd

theorem step_le_quantum_div (g : Geometry) (sizeT : Nat) (hT : 0 < sizeT)
    (hTstep : sizeT * g.stepBytes ≤ MaxQuantumBytes) :
    g.stepBytes ≤ MaxQuantumBytes / sizeT := by
  rw [Nat.le_div_iff_mul_le hT, Nat.mul_comm]
  exact hTstep

/-- C6: StrideForCyclicOffsets(cols) equals cols rounded up to a
quantum-element boundary plus one more quantum of elements, is at least
cols, and a RowPtr constructed with at least this stride never yields a
row address before row0. -/
theorem C6_stride_for_cyclic_offsets (g : Geometry) (sizeT cols : Nat)
    (hg : ValidGeometry g) (hT : 0 < sizeT)
    (hTstep : sizeT * g.stepBytes ≤ MaxQuantumBytes) :
    StrideForCyclicOffsets sizeT cols
        = RoundUpTo cols (MaxQuantumBytes / sizeT) + MaxQuantumBytes / sizeT
      ∧ cols ≤ StrideForCyclicOffsets sizeT cols
      ∧ ∀ stride, StrideForCyclicOffsets sizeT cols ≤ stride →
          ∀ (debugBuild : Bool) (row0 : Int) (r : Nat),
            row0 ≤ (RowPtr.make g sizeT debugBuild row0 cols stride).Row r := by
  have hq : 0 < MaxQuantumBytes / sizeT := by
    apply Nat.div_pos _ hT
    calc sizeT = sizeT * 1 := by ring
    _ ≤ sizeT * g.stepBytes := by
        apply Nat.mul_le_mul_left
        obtain ⟨hstep, _⟩ := hg
        omega
    _ ≤ MaxQuantumBytes := hTstep
  refine ⟨rfl, ?_, ?_⟩
  · calc cols ≤ RoundUpTo cols (MaxQuantumBytes / sizeT) := le_roundUpTo _ _ hq
    _ ≤ StrideForCyclicOffsets sizeT cols := Nat.le_add_right _ _
  · intro stride hstride debugBuild row0 r
    have hmask : (RowPtr.make g sizeT debugBuild row0 cols stride).rowMask
        = g.quantumSteps - 1 := by
      unfold RowPtr.make
      simp only
      rw [if_neg]
      push_neg
      intro _
      omega
    obtain ⟨hstep, hdvd, hle, k, hk⟩ := hg
    have hstep_le : g.stepBytes ≤ stride := by
      have h1 := step_le_quantum_div g sizeT hT hTstep
      have h2 : MaxQuantumBytes / sizeT ≤ StrideForCyclicOffsets sizeT cols :=
        Nat.le_add_left _ _
      omega
    have hpad : (r &&& (g.quantumSteps - 1)) * g.stepBytes ≤ stride * r := by
      have hand : r &&& (g.quantumSteps - 1) = r % g.quantumSteps := by
        rw [hk]
        exact Nat.and_pow_two_sub_one_eq_mod r k
      rw [hand]
      calc (r % g.quantumSteps) * g.stepBytes ≤ r * g.stepBytes :=
        Nat.mul_le_mul_right _ (Nat.mod_le _ _)
      _ ≤ r * stride := Nat.mul_le_mul_left _ hstep_le
      _ = stride * r := Nat.mul_comm _ _
    unfold RowPtr.Row
    rw [hmask]
    simp only [RowPtr.make]
    omega

/-- C1: with a stride at least StrideForCyclicOffsets(cols), Row(r) is
row0 + stride * r minus a pad of (r mod quantumSteps) * step, the pad is a
multiple of step, rows repeat with period quantumSteps at distance
stride * quantumSteps, and Row(r) is at least row0 - quantumBytes. -/
theorem C1_row_cyclic_offsets (g : Geometry) (sizeT : Nat) (debugBuild : Bool)
    (row0 : Int) (cols stride : Nat) (hg : ValidGeometry g)
    (hs : StrideForCyclicOffsets sizeT cols ≤ stride) (r : Nat) :
    (RowPtr.make g sizeT debugBuild row0 cols stride).Row r
        = row0 + (stride * r : Nat) - ((r % g.quantumSteps) * g.stepBytes : Nat)
      ∧ g.stepBytes ∣ (r % g.quantumSteps) * g.stepBytes
      ∧ (RowPtr.make g sizeT debugBuild row0 cols stride).Row (r + g.quantumSteps)
          - (RowPtr.make g sizeT debugBuild row0 cols stride).Row r
        = (stride * g.quantumSteps : Nat)
      ∧ row0 - (g.quantumBytes : Nat)
          ≤ (RowPtr.make g sizeT debugBuild row0 cols stride).Row r := by
  have hmask : (RowPtr.make g sizeT debugBuild row0 cols stride).rowMask
      = g.quantumSteps - 1 := by
    unfold RowPtr.make
    simp only
    rw [if_neg]
    push_neg
    intro _
    omega
  obtain ⟨hstep, hdvd, hle, k, hk⟩ := hg
  have hand : ∀ x : Nat, x &&& (g.quantumSteps - 1) = x % g.quantumSteps := by
    intro x
    rw [hk]
    exact Nat.and_pow_two_sub_one_eq_mod x k
  have hrow : ∀ x : Nat,
      (RowPtr.make g sizeT debugBuild row0 cols stride).Row x
        = row0 + (stride * x : Nat) - ((x % g.quantumSteps) * g.stepBytes : Nat) := by
    intro x
    unfold RowPtr.Row
    rw [hmask, hand]
    simp only [RowPtr.make]
  have hqs_pos : 0 < g.quantumSteps := by
    rw [hk]; exact Nat.pos_pow_of_pos k (by norm_num)
  have hpad_le : (r % g.quantumSteps) * g.stepBytes ≤ g.quantumBytes := by
    have h1 : r % g.quantumSteps ≤ g.quantumSteps - 1 := by
      have := Nat.mod_lt r hqs_pos
      omega
    calc (r % g.quantumSteps) * g.stepBytes
        ≤ (g.quantumSteps - 1) * g.stepBytes := Nat.mul_le_mul_right _ h1
    _ ≤ g.quantumSteps * g.stepBytes := Nat.mul_le_mul_right _ (by omega)
    _ = g.quantumBytes := quantumSteps_mul_step g ⟨hstep, hdvd, hle, k, hk⟩
  refine ⟨hrow r, Dvd.intro_left _ rfl, ?_, ?_⟩
  · rw [hrow (r + g.quantumSteps), hrow r, Nat.add_mod_right]
    have hmul : stride * (r + g.quantumSteps)
        = stride * r + stride * g.quantumSteps := by ring
    rw [hmul]
    push_cast
    ring
  · rw [hrow r]
    omega

/-- Example geometry matching a common x86 configuration: 64-byte steps
and a 4096-byte quantum, hence 64 quantum steps. -/
def gStd : Geometry := { stepBytes := 64, quantumBytes := 4096 }

theorem gStd_valid : ValidGeometry gStd :=
  ⟨by decide, by decide, by decide, 6, by decide⟩

/-- Witness for C1 at the standard geometry, float elements, cols = 4,
stride = 2048 = StrideForCyclicOffsets, r = 5. -/
theorem C1_row_cyclic_offsets_witness :
    (RowPtr.make gStd 4 false 0 4 2048).Row 5
        = 0 + (2048 * 5 : Nat) - ((5 % gStd.quantumSteps) * gStd.stepBytes : Nat)
      ∧ gStd.stepBytes ∣ (5 % gStd.quantumSteps) * gStd.stepBytes
      ∧ (RowPtr.make gStd 4 false 0 4 2048).Row (5 + gStd.quantumSteps)
          - (RowPtr.make gStd 4 false 0 4 2048).Row 5
        = (2048 * gStd.quantumSteps : Nat)
      ∧ (0 : Int) - (gStd.quantumBytes : Nat)
          ≤ (RowPtr.make gStd 4 false 0 4 2048).Row 5 :=
  C1_row_cyclic_offsets gStd 4 false 0 4 2048 gStd_valid (by decide) 5

/-- Witness for C6 at the standard geometry with float elements. -/
theorem C6_stride_for_cyclic_offsets_witness :
    (StrideForCyclicOffsets 4 100
        = RoundUpTo 100 (MaxQuantumBytes / 4) + MaxQuantumBytes / 4
      ∧ 100 ≤ StrideForCyclicOffsets 4 100
      ∧ ∀ stride, StrideForCyclicOffsets 4 100 ≤ stride →
          ∀ (debugBuild : Bool) (row0 : Int) (r : Nat),
            row0 ≤ (RowPtr.make gStd 4 debugBuild row0 100 stride).Row r) :=
  C6_stride_for_cyclic_offsets gStd 4 100 gStd_valid (by decide) (by decide)

/-- C7 counterexample: in a release build (HWY_IS_DEBUG_BUILD false) the
constructor does not reset the row mask for a stride below
StrideForCyclicOffsets; with cols = stride = 4 (float elements, standard
geometry) the mask stays 63, Row(1) is not row0 + stride, and Row(1) lies
before row0. -/
theorem C7_counterexample :
    (RowPtr.make gStd 4 false 0 4 4).rowMask ≠ 0
    ∧ (RowPtr.make gStd 4 false 0 4 4).Row 1 ≠ 0 + (4 * 1 : Nat)
    ∧ (RowPtr.make gStd 4 false 0 4 4).Row 1 < 0 := by decide

/-- C7 amended: in debug builds the constructor disables the cyclic pad
for cols ≤ stride < StrideForCyclicOffsets(cols): the mask becomes 0,
Row(r) = row0 + stride * r, and no address before row0 is formed. -/
theorem C7_debug_disables_pad (g : Geometry) (sizeT : Nat) (row0 : Int)
    (cols stride : Nat) (_hcs : cols ≤ stride)
    (hs : stride < StrideForCyclicOffsets sizeT cols) :
    (RowPtr.make g sizeT true row0 cols stride).rowMask = 0
    ∧ ∀ r : Nat, (RowPtr.make g sizeT true row0 cols stride).Row r
          = row0 + (stride * r : Nat)
      ∧ row0 ≤ (RowPtr.make g sizeT true row0 cols stride).Row r := by
  have hmask : (RowPtr.make g sizeT true row0 cols stride).rowMask = 0 := by
    simp [RowPtr.make, hs]
  refine ⟨hmask, fun r => ?_⟩
  have h : (RowPtr.make g sizeT true row0 cols stride).Row r
      = row0 + (stride * r : Nat) := by
    unfold RowPtr.Row
    rw [hmask]
    simp [RowPtr.make, Nat.and_zero]
  refine ⟨h, ?_⟩
  rw [h]
  omega

/-- Witness for C7 amended at cols = 4, stride = 4, float elements. -/
theorem C7_debug_disables_pad_witness :
    (RowPtr.make gStd 4 true 7 4 4).rowMask = 0
    ∧ ∀ r : Nat, (RowPtr.make gStd 4 true 7 4 4).Row r = 7 + (4 * r : Nat)
      ∧ (7 : Int) ≤ (RowPtr.make gStd 4 true 7 4 4).Row r :=
  C7_debug_disables_pad gStd 4 7 4 4 (by decide) (by decide)

/-- C10: View(r, c, w) returns a sub-view whose row-0 pointer is
Row(r) + c, whose column count is w, and whose stride is the parent
stride. -/
theorem C10_view (g : Geometry) (sizeT : Nat) (debugBuild : Bool) (p : RowPtr)
    (r c w : Nat) (_hc : c < p.cols) (_hw : w ≤ p.cols - c) :
    (RowPtr.View g sizeT debugBuild p r c w).row0 = p.Row r + (c : Nat)
    ∧ (RowPtr.View g sizeT debugBuild p r c w).cols = w
    ∧ (RowPtr.View g sizeT debugBuild p r c w).stride = p.stride :=
  ⟨rfl, rfl, rfl⟩

/-- Witness for C10 on a concrete parent view. -/
theorem C10_view_witness :
    (RowPtr.View gStd 4 false (RowPtr.make gStd 4 false 0 8 2048) 1 2 3).row0
        = (RowPtr.make gStd 4 false 0 8 2048).Row 1 + (2 : Nat)
    ∧ (RowPtr.View gStd 4 false (RowPtr.make gStd 4 false 0 8 2048) 1 2 3).cols = 3
    ∧ (RowPtr.View gStd 4 false (RowPtr.make gStd 4 false 0 8 2048) 1 2 3).stride
        = (RowPtr.make gStd 4 false 0 8 2048).stride :=
  C10_view gStd 4 false (RowPtr.make gStd 4 false 0 8 2048) 1 2 3
    (by decide) (by decide)

/-- C2: Alloc returns the empty handle exactly when num * sizeof(T)
overflows size_t; otherwise the returned buffer is quantum-aligned with a
byte size that is a multiple of quantum bytes and at least num *
sizeof(T). -/
theorem C2_alloc (g : Geometry) (sizeT num : Nat) (hg : ValidGeometry g)
    (hT : 0 < sizeT) :
    (Allocator.Alloc g sizeT num = none ↔ sizeTLimit ≤ num * sizeT)
    ∧ ∀ buf, Allocator.Alloc g sizeT num = some buf →
        g.quantumBytes ∣ buf.bytes ∧ num * sizeT ≤ buf.bytes
        ∧ g.quantumBytes ∣ buf.addr := by
  have hlim : 0 < sizeTLimit := by unfold sizeTLimit; positivity
  have hno : num * sizeT < sizeTLimit →
      (num * sizeT) % sizeTLimit / sizeT = num := by
    intro h
    rw [Nat.mod_eq_of_lt h, Nat.mul_div_cancel _ hT]
  have hyes : sizeTLimit ≤ num * sizeT →
      (num * sizeT) % sizeTLimit / sizeT ≠ num := by
    intro h heq
    have hb : (num * sizeT) % sizeTLimit < sizeTLimit := Nat.mod_lt _ hlim
    have h2 : ((num * sizeT) % sizeTLimit / sizeT) * sizeT
        ≤ (num * sizeT) % sizeTLimit := Nat.div_mul_le_self _ _
    rw [heq] at h2
    omega
  constructor
  · constructor
    · intro hnone
      by_contra hlt
      push_neg at hlt
      unfold Allocator.Alloc at hnone
      rw [if_neg (by simp [hno hlt])] at hnone
      exact Option.some_ne_none _ hnone
    · intro hof
      unfold Allocator.Alloc
      rw [if_pos]
      simpa using hyes hof
  · intro buf hbuf
    have hlt : num * sizeT < sizeTLimit := by
      by_contra hof
      push_neg at hof
      unfold Allocator.Alloc at hbuf
      rw [if_pos (by simpa using hyes hof)] at hbuf
      exact Option.noConfusion hbuf
    have hbytes : (num * sizeT) % sizeTLimit = num * sizeT :=
      Nat.mod_eq_of_lt hlt
    have hsome : Allocator.Alloc g sizeT num
        = some (Allocator.AllocBytes g (num * sizeT)) := by
      unfold Allocator.Alloc
      rw [if_neg (by simp [hno hlt])]
      rw [hbytes]
    rw [hsome] at hbuf
    have hb := Option.some.inj hbuf
    have hq : 0 < g.quantumBytes := quantumBytes_pos g hg
    refine ⟨?_, ?_, ?_⟩
    · rw [← hb]
      exact dvd_roundUpTo _ _
    · rw [← hb]
      exact le_roundUpTo _ _ hq
    · rw [← hb]
      exact dvd_rfl

/-- Witness for C2 at the standard geometry: sizeof(float) = 4, num = 3. -/
theorem C2_alloc_witness :
    (Allocator.Alloc gStd 4 3 = none ↔ sizeTLimit ≤ 3 * 4)
    ∧ ∀ buf, Allocator.Alloc gStd 4 3 = some buf →
        gStd.quantumBytes ∣ buf.bytes ∧ 3 * 4 ≤ buf.bytes
        ∧ gStd.quantumBytes ∣ buf.addr := by
  have h := C2_alloc gStd 4 3 gStd_valid (by decide)
  exact ⟨h.1, h.2⟩


/-- Numeric weight type tags used by weights.cc: the four supported
representations plus the unknown tag; any tag outside the four supported
ones takes the aborting default branch of CreateForType, so one unknown
tag suffices. Named Ty because Type is reserved in Lean. -/
inductive Ty where
  | kUnknown
  | kF32
  | kBF16
  | kSFP
  | kNUQ
  deriving DecidableEq, Repr

/-- Model architecture tag (gemma/common.h): UNKNOWN or a known registry
entry, abstracted by its registry index. -/
inductive Model where
  | UNKNOWN
  | known (id : Nat)
  deriving DecidableEq, Repr

/-- The slice of ModelConfig (gemma/configs.h, not under src/) that
weights.cc reads: model_dim, the numeric weight type, the prompt-wrapping
tag (abstract), the two scale counts, and, modelled from the spec, the
element counts of the named tensor set the config declares. -/
structure ModelConfig where
  model_dim : Nat
  weight : Ty
  wrapping : Nat
  num_tensor_scales : Nat
  vit_num_scales : Nat
  tensorShapes : List Nat
  deriving DecidableEq, Repr

/-- MatPtr metadata and payload: element count, element data (numeric
payload abstracted to Int), and the per-tensor scale. -/
structure MatPtr where
  numElements : Nat
  data : List Int
  scale : Int
  deriving DecidableEq, Repr

/-- Modelled from the spec: ModelWeightsPtrs of T (gemma/weights.h, not
under src/) holds the config and the full named tensor set; ForEachTensor
enumerates the tensors in a fixed deterministic order, which this list
fixes. -/
structure ModelWeightsPtrs where
  config : ModelConfig
  tensors : List MatPtr
  deriving DecidableEq, Repr

/-- Modelled from the spec: the ModelWeightsPtrs constructor builds the
named tensor set whose shapes the config declares; data is unallocated. -/
def ModelWeightsPtrs.ofConfig (cfg : ModelConfig) : ModelWeightsPtrs :=
  { config := cfg,
    tensors := cfg.tensorShapes.map fun n =>
      { numElements := n, data := [], scale := 0 } }

/-- Modelled from the spec: per-container Allocate gives every tensor its
backing storage. -/
def ModelWeightsPtrs.allocate (w : ModelWeightsPtrs) : ModelWeightsPtrs :=
  { w with tensors := w.tensors.map fun t =>
      { t with data := List.replicate t.numElements 0 } }

/-- ModelWeightsStorage state: the config, the four weight-variant
containers (at most one intended live; nothing in the code clears the
others), the abstract MatStorage pool written by the bulk read, the scale
list recorded by GetOrApplyScales, and whether the legacy transpose pass
ran. -/
structure ModelWeightsStorage where
  config : ModelConfig
  float_weights : Option ModelWeightsPtrs
  bf16_weights : Option ModelWeightsPtrs
  sfp_weights : Option ModelWeightsPtrs
  nuq_weights : Option ModelWeightsPtrs
  appliedScales : List Int
  transposed : Bool
  deriving DecidableEq, Repr

/-- A default-constructed storage: no container live. -/
def ModelWeightsStorage.empty : ModelWeightsStorage :=
  { config := { model_dim := 0, weight := Ty.kUnknown, wrapping := 0,
                num_tensor_scales := 0, vit_num_scales := 0, tensorShapes := [] },
    float_weights := none, bf16_weights := none, sfp_weights := none,
    nuq_weights := none, appliedScales := [], transposed := false }

/-- ModelWeightsStorage::CreateForType from weights.cc: populate the
container selected by the tag from the stored config; the default branch
is HWY_ABORT, modelled as none. The other containers are left untouched. -/
def ModelWeightsStorage.CreateForType (st : ModelWeightsStorage) (t : Ty) :
    Option ModelWeightsStorage :=
  match t with
  | Ty.kF32 =>
      some { st with float_weights := some (ModelWeightsPtrs.ofConfig st.config) }
  | Ty.kBF16 =>
      some { st with bf16_weights := some (ModelWeightsPtrs.ofConfig st.config) }
  | Ty.kSFP =>
      some { st with sfp_weights := some (ModelWeightsPtrs.ofConfig st.config) }
  | Ty.kNUQ =>
      some { st with nuq_weights := some (ModelWeightsPtrs.ofConfig st.config) }
  | Ty.kUnknown => none

/-- Number of live weight-variant containers. -/
def ModelWeightsStorage.liveCount (st : ModelWeightsStorage) : Nat :=
  (if st.float_weights.isSome then 1 else 0)
    + (if st.bf16_weights.isSome then 1 else 0)
    + (if st.sfp_weights.isSome then 1 else 0)
    + (if st.nuq_weights.isSome then 1 else 0)

/-- ModelWeightsStorage::Allocate from weights.cc: store the config with
the requested weight type, create the matching container, then let every
live container allocate its tensors. -/
def ModelWeightsStorage.Allocate (st : ModelWeightsStorage)
    (config : ModelConfig) (weight_type : Ty) : Option ModelWeightsStorage :=
  let st1 := { st with config := { config with weight := weight_type } }
  match st1.CreateForType weight_type with
  | none => none
  | some st2 =>
      some { st2 with
        float_weights := st2.float_weights.map ModelWeightsPtrs.allocate,
        bf16_weights := st2.bf16_weights.map ModelWeightsPtrs.allocate,
        sfp_weights := st2.sfp_weights.map ModelWeightsPtrs.allocate,
        nuq_weights := st2.nuq_weights.map ModelWeightsPtrs.allocate }

/-- Modelled from the spec: the observable behavior of the external
ReadFromBlobStore codec on one weights file: whether the path exists,
whether the container carries a table of contents, the results of
LoadConfig, LoadTokenizer and ReadAll, and the named tensor payloads and
scale list the file holds. -/
structure BlobFile where
  pathExists : Bool
  haveToc : Bool
  configErr : Nat
  tocConfig : ModelConfig
  tokErr : Nat
  readAllErr : Nat
  tensorData : List (List Int)
  scalesData : List Int
  deriving DecidableEq, Repr

/-- Modelled from the spec: the bulk read hands every enumerated tensor
its named blob from the file. -/
def readTensors (file : BlobFile) (w : ModelWeightsPtrs) : ModelWeightsPtrs :=
  { w with tensors := w.tensors.mapIdx fun i t =>
      { t with data := file.tensorData.getD i [] } }

/-- ReadAll applied to all live containers. -/
def ModelWeightsStorage.readAll (st : ModelWeightsStorage) (file : BlobFile) :
    ModelWeightsStorage :=
  { st with
    float_weights := st.float_weights.map (readTensors file),
    bf16_weights := st.bf16_weights.map (readTensors file),
    sfp_weights := st.sfp_weights.map (readTensors file),
    nuq_weights := st.nuq_weights.map (readTensors file) }

/-- ModelWeightsStorage::Load from weights.cc, lines 53-111. Control flow
mirrors the source: HWY_ABORT (none) when the path does not exist; on the
with-toc path LoadConfig and optionally LoadTokenizer, each with an early
nonzero-error return; on the legacy path an early __LINE__ = 85 return
when the caller-supplied weight or model type is unknown, otherwise a
config synthesized from the registry (configFromModel, an external
parameter) and a scale list of the declared size; then CreateForType
(which can abort), the bulk read with an early nonzero-error return, and,
legacy only, scale application and the transpose pass. -/
def ModelWeightsStorage.Load (configFromModel : Model → ModelConfig)
    (st : ModelWeightsStorage) (file : BlobFile) (model_type : Model)
    (weight_type : Ty) (wrapping : Nat) (wantTokenizer : Bool) :
    Option (Nat × ModelWeightsStorage) :=
  if file.pathExists = false then
    none
  else if file.haveToc then
    let st1 := { st with config := file.tocConfig }
    if file.configErr ≠ 0 ∨ st1.config.model_dim = 0 then
      some (file.configErr, st1)
    else if wantTokenizer ∧ file.tokErr ≠ 0 then
      some (file.tokErr, st1)
    else
      match st1.CreateForType st1.config.weight with
      | none => none
      | some st2 =>
          let st3 := st2.readAll file
          if file.readAllErr ≠ 0 then some (file.readAllErr, st3)
          else some (0, st3)
  else
    if weight_type = Ty.kUnknown ∨ model_type = Model.UNKNOWN then
      some (85, st)
    else
      let cfg0 := configFromModel model_type
      let cfg := { cfg0 with weight := weight_type, wrapping := wrapping }
      let st1 := { st with config := cfg }
      let n := cfg.num_tensor_scales + cfg.vit_num_scales
      match st1.CreateForType weight_type with
      | none => none
      | some st2 =>
          let scales := (List.range n).map fun i => file.scalesData.getD i 0
          let st3 := st2.readAll file
          if file.readAllErr ≠ 0 then some (file.readAllErr, st3)
          else
            let st4 :=
              if scales ≠ [] then { st3 with appliedScales := scales } else st3
            some (0, { st4 with transposed := true })


/-- C4: Load of a path that does not exist aborts the process (modelled as
none); Load of an existing file with no table of contents returns the
nonzero code 85 (the source line number) without crashing when the
caller-supplied weight type or model type is unknown. -/
theorem C4_load_errors (configFromModel : Model → ModelConfig)
    (st : ModelWeightsStorage) (file : BlobFile) (model_type : Model)
    (weight_type : Ty) (wrapping : Nat) (wantTokenizer : Bool) :
    (file.pathExists = false →
      st.Load configFromModel file model_type weight_type wrapping
        wantTokenizer = none)
    ∧ (file.pathExists = true → file.haveToc = false →
        (weight_type = Ty.kUnknown ∨ model_type = Model.UNKNOWN) →
        st.Load configFromModel file model_type weight_type wrapping
            wantTokenizer = some (85, st)
          ∧ (85 : Nat) ≠ 0) := by
  constructor
  · intro h
    unfold ModelWeightsStorage.Load
    rw [if_pos h]
  · intro hex htoc hunk
    unfold ModelWeightsStorage.Load
    rw [if_neg (by simp [hex]), if_neg (by simp [htoc]), if_pos hunk]
    exact ⟨rfl, by norm_num⟩

/-- Concrete weights file for witnesses: missing path. -/
def fileMissing : BlobFile :=
  { pathExists := false, haveToc := false, configErr := 0,
    tocConfig := ModelWeightsStorage.empty.config, tokErr := 0,
    readAllErr := 0, tensorData := [], scalesData := [] }

/-- Concrete weights file for witnesses: legacy format (no toc). -/
def fileLegacy : BlobFile :=
  { pathExists := true, haveToc := false, configErr := 0,
    tocConfig := ModelWeightsStorage.empty.config, tokErr := 0,
    readAllErr := 0, tensorData := [[3, 4]], scalesData := [2] }

/-- Concrete weights file for witnesses: with-toc format carrying an f32
config. -/
def fileToc : BlobFile :=
  { pathExists := true, haveToc := true, configErr := 0,
    tocConfig := { model_dim := 8, weight := Ty.kF32, wrapping := 0,
                   num_tensor_scales := 0, vit_num_scales := 0,
                   tensorShapes := [2] },
    tokErr := 0, readAllErr := 0, tensorData := [[3, 4]], scalesData := [] }

/-- Witness for C4 on concrete files: a missing path aborts; a legacy file
with unknown weight type returns 85. -/
theorem C4_load_errors_witness :
    (ModelWeightsStorage.empty.Load (fun _ => ModelWeightsStorage.empty.config)
        fileMissing (Model.known 1) Ty.kF32 0 false = none)
    ∧ (ModelWeightsStorage.empty.Load (fun _ => ModelWeightsStorage.empty.config)
          fileLegacy (Model.known 1) Ty.kUnknown 0 false
        = some (85, ModelWeightsStorage.empty)
      ∧ (85 : Nat) ≠ 0) :=
  ⟨(C4_load_errors (fun _ => ModelWeightsStorage.empty.config)
      ModelWeightsStorage.empty fileMissing (Model.known 1) Ty.kF32 0 false).1
      rfl,
    (C4_load_errors (fun _ => ModelWeightsStorage.empty.config)
      ModelWeightsStorage.empty fileLegacy (Model.known 1) Ty.kUnknown 0
      false).2 rfl rfl (Or.inl rfl)⟩

/-- C9: on a file that carries a table of contents, Load ignores the
caller-supplied model type, weight type and wrapping mode: the returned
code and the entire resulting state agree for any two choices of those
arguments. -/
theorem C9_load_toc_ignores_args (configFromModel : Model → ModelConfig)
    (st : ModelWeightsStorage) (file : BlobFile) (mt mt2 : Model)
    (wt wt2 : Ty) (wr wr2 : Nat) (wantTokenizer : Bool)
    (htoc : file.haveToc = true) :
    st.Load configFromModel file mt wt wr wantTokenizer
      = st.Load configFromModel file mt2 wt2 wr2 wantTokenizer := by
  unfold ModelWeightsStorage.Load
  by_cases hex : file.pathExists = false
  · rw [if_pos hex, if_pos hex]
  · rw [if_neg hex, if_neg hex, if_pos htoc, if_pos htoc]

/-- Witness for C9 on the concrete with-toc file and two argument sets. -/
theorem C9_load_toc_ignores_args_witness :
    ModelWeightsStorage.empty.Load
        (fun _ => ModelWeightsStorage.empty.config) fileToc (Model.known 1)
        Ty.kF32 0 true
      = ModelWeightsStorage.empty.Load
          (fun _ => ModelWeightsStorage.empty.config) fileToc Model.UNKNOWN
          Ty.kBF16 7 true :=
  C9_load_toc_ignores_args (fun _ => ModelWeightsStorage.empty.config)
    ModelWeightsStorage.empty fileToc (Model.known 1) Model.UNKNOWN Ty.kF32
    Ty.kBF16 0 7 true rfl


/-- One call in a usage sequence of a ModelWeightsStorage instance: a bare
CreateForType, an Allocate, or a Load (with the external registry function
and the file it reads). -/
inductive StorageCall where
  | create (t : Ty)
  | allocateCall (cfg : ModelConfig) (t : Ty)
  | loadCall (cfm : Model → ModelConfig) (file : BlobFile) (mt : Model)
      (wt : Ty) (wr : Nat) (tok : Bool)

/-- The weight type a call hands to CreateForType when it reaches it: for
Load on a with-toc file that is the type recorded in the file config, else
the caller-supplied type. -/
def StorageCall.tag : StorageCall → Ty
  | StorageCall.create t => t
  | StorageCall.allocateCall _ t => t
  | StorageCall.loadCall _ file _ wt _ _ =>
      if file.haveToc then file.tocConfig.weight else wt

/-- Execute one call against the storage; none is a process abort. -/
def ModelWeightsStorage.applyCall (st : ModelWeightsStorage) :
    StorageCall → Option ModelWeightsStorage
  | StorageCall.create t => st.CreateForType t
  | StorageCall.allocateCall cfg t => st.Allocate cfg t
  | StorageCall.loadCall cfm file mt wt wr tok =>
      (st.Load cfm file mt wt wr tok).map Prod.snd

/-- Execute a sequence of calls. -/
def ModelWeightsStorage.applyCalls (st : ModelWeightsStorage) :
    List StorageCall → Option ModelWeightsStorage
  | [] => some st
  | c :: cs =>
      match st.applyCall c with
      | none => none
      | some st2 => st2.applyCalls cs

/-- Only the container matching tag u can be live. -/
def OnlyLive (st : ModelWeightsStorage) (u : Ty) : Prop :=
  (st.float_weights.isSome = true → u = Ty.kF32)
  ∧ (st.bf16_weights.isSome = true → u = Ty.kBF16)
  ∧ (st.sfp_weights.isSome = true → u = Ty.kSFP)
  ∧ (st.nuq_weights.isSome = true → u = Ty.kNUQ)

theorem onlyLive_liveCount (st : ModelWeightsStorage) (u : Ty)
    (h : OnlyLive st u) : st.liveCount ≤ 1 := by
  obtain ⟨h1, h2, h3, h4⟩ := h
  unfold ModelWeightsStorage.liveCount
  cases u
  case kUnknown =>
    have e1 : st.float_weights.isSome = false := by
      by_contra hh
      simp only [Bool.not_eq_false] at hh
      exact absurd (h1 hh) (by decide)
    have e2 : st.bf16_weights.isSome = false := by
      by_contra hh
      simp only [Bool.not_eq_false] at hh
      exact absurd (h2 hh) (by decide)
    have e3 : st.sfp_weights.isSome = false := by
      by_contra hh
      simp only [Bool.not_eq_false] at hh
      exact absurd (h3 hh) (by decide)
    have e4 : st.nuq_weights.isSome = false := by
      by_contra hh
      simp only [Bool.not_eq_false] at hh
      exact absurd (h4 hh) (by decide)
    simp [e1, e2, e3, e4]
  case kF32 =>
    have e2 : st.bf16_weights.isSome = false := by
      by_contra hh
      simp only [Bool.not_eq_false] at hh
      exact absurd (h2 hh) (by decide)
    have e3 : st.sfp_weights.isSome = false := by
      by_contra hh
      simp only [Bool.not_eq_false] at hh
      exact absurd (h3 hh) (by decide)
    have e4 : st.nuq_weights.isSome = false := by
      by_contra hh
      simp only [Bool.not_eq_false] at hh
      exact absurd (h4 hh) (by decide)
    simp [e2, e3, e4]
    split <;> omega
  case kBF16 =>
    have e1 : st.float_weights.isSome = false := by
      by_contra hh
      simp only [Bool.not_eq_false] at hh
      exact absurd (h1 hh) (by decide)
    have e3 : st.sfp_weights.isSome = false := by
      by_contra hh
      simp only [Bool.not_eq_false] at hh
      exact absurd (h3 hh) (by decide)
    have e4 : st.nuq_weights.isSome = false := by
      by_contra hh
      simp only [Bool.not_eq_false] at hh
      exact absurd (h4 hh) (by decide)
    simp [e1, e3, e4]
    split <;> omega
  case kSFP =>
    have e1 : st.float_weights.isSome = false := by
      by_contra hh
      simp only [Bool.not_eq_false] at hh
      exact absurd (h1 hh) (by decide)
    have e2 : st.bf16_weights.isSome = false := by
      by_contra hh
      simp only [Bool.not_eq_false] at hh
      exact absurd (h2 hh) (by decide)
    have e4 : st.nuq_weights.isSome = false := by
      by_contra hh
      simp only [Bool.not_eq_false] at hh
      exact absurd (h4 hh) (by decide)
    simp [e1, e2, e4]
    split <;> omega
  case kNUQ =>
    have e1 : st.float_weights.isSome = false := by
      by_contra hh
      simp only [Bool.not_eq_false] at hh
      exact absurd (h1 hh) (by decide)
    have e2 : st.bf16_weights.isSome = false := by
      by_contra hh
      simp only [Bool.not_eq_false] at hh
      exact absurd (h2 hh) (by decide)
    have e3 : st.sfp_weights.isSome = false := by
      by_contra hh
      simp only [Bool.not_eq_false] at hh
      exact absurd (h3 hh) (by decide)
    simp [e1, e2, e3]
    split <;> omega

theorem createForType_onlyLive (st st2 : ModelWeightsStorage) (t u : Ty)
    (h : st.CreateForType t = some st2) (ht : t = u) (hol : OnlyLive st u) :
    OnlyLive st2 u := by
  subst ht
  obtain ⟨h1, h2, h3, h4⟩ := hol
  cases t <;> simp [ModelWeightsStorage.CreateForType] at h <;> subst h <;>
    exact ⟨by simp_all, by simp_all, by simp_all, by simp_all⟩

theorem readAll_onlyLive (st : ModelWeightsStorage) (file : BlobFile)
    (u : Ty) (hol : OnlyLive st u) : OnlyLive (st.readAll file) u := by
  obtain ⟨h1, h2, h3, h4⟩ := hol
  refine ⟨?_, ?_, ?_, ?_⟩ <;>
    simp [ModelWeightsStorage.readAll, Option.isSome_map] <;> assumption

theorem applyCall_onlyLive (st st2 : ModelWeightsStorage) (c : StorageCall)
    (u : Ty) (h : st.applyCall c = some st2) (ht : c.tag = u)
    (hol : OnlyLive st u) : OnlyLive st2 u := by
  cases c
  case create t =>
    exact createForType_onlyLive st st2 t u h ht hol
  case allocateCall cfg t =>
    simp only [ModelWeightsStorage.applyCall, ModelWeightsStorage.Allocate] at h
    cases hcr : ModelWeightsStorage.CreateForType
        { st with config := { cfg with weight := t } } t with
    | none => rw [hcr] at h; exact Option.noConfusion h
    | some stc =>
        rw [hcr] at h
        have holc : OnlyLive stc u :=
          createForType_onlyLive _ stc t u hcr ht hol
        obtain ⟨h1, h2, h3, h4⟩ := holc
        have hst2 := Option.some.inj h
        subst hst2
        refine ⟨?_, ?_, ?_, ?_⟩ <;> simp [Option.isSome_map] <;> assumption
  case loadCall cfm file mt wt wr tok =>
    simp only [ModelWeightsStorage.applyCall] at h
    obtain ⟨⟨code, res⟩, hload, hsnd⟩ := Option.map_eq_some'.mp h
    subst hsnd
    simp only [ModelWeightsStorage.Load] at hload
    by_cases hex : file.pathExists = false
    · rw [if_pos hex] at hload
      exact Option.noConfusion hload
    rw [if_neg hex] at hload
    by_cases htoc : file.haveToc
    · rw [if_pos htoc] at hload
      simp only [StorageCall.tag, if_pos htoc] at ht
      by_cases hcfg : file.configErr ≠ 0 ∨ file.tocConfig.model_dim = 0
      · rw [if_pos hcfg] at hload
        have := (Prod.mk.inj (Option.some.inj hload)).2
        subst this
        exact hol
      rw [if_neg hcfg] at hload
      by_cases htok : tok ∧ file.tokErr ≠ 0
      · rw [if_pos htok] at hload
        have := (Prod.mk.inj (Option.some.inj hload)).2
        subst this
        exact hol
      rw [if_neg htok] at hload
      cases hcr : ModelWeightsStorage.CreateForType
          { st with config := file.tocConfig } file.tocConfig.weight with
      | none => rw [hcr] at hload; exact Option.noConfusion hload
      | some stc =>
          rw [hcr] at hload
          dsimp only at hload
          have holc : OnlyLive stc u :=
            createForType_onlyLive _ stc _ u hcr ht hol
          have holr := readAll_onlyLive stc file u holc
          by_cases hre : file.readAllErr ≠ 0
          · rw [if_pos hre] at hload
            have := (Prod.mk.inj (Option.some.inj hload)).2
            subst this
            exact holr
          · rw [if_neg hre] at hload
            have := (Prod.mk.inj (Option.some.inj hload)).2
            subst this
            exact holr
    · rw [if_neg htoc] at hload
      simp only [StorageCall.tag, if_neg htoc] at ht
      by_cases hunk : wt = Ty.kUnknown ∨ mt = Model.UNKNOWN
      · rw [if_pos hunk] at hload
        have := (Prod.mk.inj (Option.some.inj hload)).2
        subst this
        exact hol
      rw [if_neg hunk] at hload
      cases hcr : ModelWeightsStorage.CreateForType
          { st with config :=
              { cfm mt with weight := wt, wrapping := wr } } wt with
      | none => rw [hcr] at hload; exact Option.noConfusion hload
      | some stc =>
          rw [hcr] at hload
          dsimp only at hload
          have holc : OnlyLive stc u :=
            createForType_onlyLive _ stc _ u hcr ht hol
          have holr := readAll_onlyLive stc file u holc
          obtain ⟨hr1, hr2, hr3, hr4⟩ := holr
          by_cases hre : file.readAllErr ≠ 0
          · rw [if_pos hre] at hload
            have := (Prod.mk.inj (Option.some.inj hload)).2
            subst this
            exact ⟨hr1, hr2, hr3, hr4⟩
          · rw [if_neg hre] at hload
            have := (Prod.mk.inj (Option.some.inj hload)).2
            subst this
            by_cases hsc : ((List.range
                ((cfm mt).num_tensor_scales + (cfm mt).vit_num_scales)).map
                  fun i => file.scalesData.getD i 0) ≠ []
            · rw [if_pos hsc]
              exact ⟨by simpa using hr1, by simpa using hr2,
                by simpa using hr3, by simpa using hr4⟩
            · rw [if_neg hsc]
              exact ⟨by simpa using hr1, by simpa using hr2,
                by simpa using hr3, by simpa using hr4⟩

theorem applyCalls_onlyLive (calls : List StorageCall)
    (st st2 : ModelWeightsStorage) (u : Ty)
    (h : st.applyCalls calls = some st2)
    (ht : ∀ c ∈ calls, StorageCall.tag c = u) (hol : OnlyLive st u) :
    OnlyLive st2 u := by
  induction calls generalizing st with
  | nil =>
      simp [ModelWeightsStorage.applyCalls] at h
      subst h
      exact hol
  | cons c cs ih =>
      simp only [ModelWeightsStorage.applyCalls] at h
      cases hc : st.applyCall c with
      | none => rw [hc] at h; exact Option.noConfusion h
      | some stc =>
          rw [hc] at h
          have holc := applyCall_onlyLive st stc c u hc
            (ht c (List.mem_cons_self c cs)) hol
          exact ih stc h (fun d hd => ht d (List.mem_cons_of_mem c hd)) holc

/-- C5 counterexample: CreateForType never clears the other containers, so
calling it twice with two different supported tags leaves two containers
live, violating the at-most-one invariant the claim states for every call
sequence. -/
theorem C5_counterexample :
    ((ModelWeightsStorage.empty.CreateForType Ty.kF32).bind
        fun st => st.CreateForType Ty.kBF16).map
      ModelWeightsStorage.liveCount = some 2 := by rfl

/-- C5 amended: CreateForType aborts on an unsupported tag, and for every
sequence of Allocate, Load and CreateForType calls that all route the same
supported weight type tag to CreateForType, a fresh storage instance ends
with at most one live container (the one matching that tag). CreateForType
does not clear the other containers, so sequences mixing two different
tags can leave two containers live. -/
theorem C5_single_type_single_container (calls : List StorageCall) (t : Ty)
    (st2 : ModelWeightsStorage)
    (ht : ∀ c ∈ calls, StorageCall.tag c = t)
    (h : ModelWeightsStorage.empty.applyCalls calls = some st2) :
    st2.liveCount ≤ 1
    ∧ ∀ st : ModelWeightsStorage, st.CreateForType Ty.kUnknown = none := by
  constructor
  · have hol : OnlyLive ModelWeightsStorage.empty t := by
      refine ⟨?_, ?_, ?_, ?_⟩ <;> intro hh <;>
        simp [ModelWeightsStorage.empty] at hh
    exact onlyLive_liveCount st2 t
      (applyCalls_onlyLive calls ModelWeightsStorage.empty st2 t h ht hol)
  · intro st
    rfl

/-- Witness for C5 amended: one CreateForType call with the f32 tag. -/
theorem C5_single_type_single_container_witness :
    (ModelWeightsStorage.empty.applyCalls [StorageCall.create Ty.kF32]
        = some { ModelWeightsStorage.empty with
            float_weights :=
              some (ModelWeightsPtrs.ofConfig ModelWeightsStorage.empty.config) })
    ∧ ({ ModelWeightsStorage.empty with
          float_weights :=
            some (ModelWeightsPtrs.ofConfig ModelWeightsStorage.empty.config)
        } : ModelWeightsStorage).liveCount ≤ 1 := by
  refine ⟨rfl, ?_⟩
  exact (C5_single_type_single_container [StorageCall.create Ty.kF32] Ty.kF32 _
    (by intro c hc; simp at hc; subst hc; rfl) rfl).1


/-- WeightInitializer::operator() from weights.cc applied to one tensor:
every element receives the next draw from the normal-distribution stream
(gen abstracts the mt19937-driven std::normal_distribution; draw k is the
k-th value sampled, so distinct indices are independent draws), then the
scale is set to 1.0. k is the number of draws consumed so far. -/
def WeightInitializer.initTensor (gen : Nat → Int) (k : Nat) (t : MatPtr) :
    MatPtr :=
  { t with data := (List.range t.numElements).map fun i => gen (k + i),
           scale := 1 }

/-- Modelled from the spec: the ForEachTensor traversal (weights.h, not
under src/) presents the tensors in their fixed order; under the
WeightInitializer handler the draw counter advances by each visited
tensor element count. -/
def initTensorList (gen : Nat → Int) : Nat → List MatPtr → List MatPtr
  | _, [] => []
  | k, t :: ts =>
      WeightInitializer.initTensor gen k t
        :: initTensorList gen (k + t.numElements) ts

/-- ModelWeightsStorage::RandInit from weights.cc: HWY_ASSERT that the
float container is live (none models the abort), then run the
WeightInitializer over the traversal. -/
def ModelWeightsStorage.RandInit (st : ModelWeightsStorage)
    (gen : Nat → Int) : Option ModelWeightsStorage :=
  match st.float_weights with
  | none => none
  | some fw =>
      some { st with
        float_weights := some { fw with tensors := initTensorList gen 0 fw.tensors } }

/-- Draws consumed by the traversal before tensor j: the total element
count of the earlier tensors. -/
def offsetBefore (ts : List MatPtr) (j : Nat) : Nat :=
  ((ts.take j).map MatPtr.numElements).sum

theorem initTensorList_length (gen : Nat → Int) (ts : List MatPtr)
    (k : Nat) : (initTensorList gen k ts).length = ts.length := by
  induction ts generalizing k with
  | nil => rfl
  | cons t ts ih => simp [initTensorList, ih]

theorem initTensorList_getD (gen : Nat → Int) (ts : List MatPtr)
    (k j : Nat) (d : MatPtr) (hj : j < ts.length) :
    (initTensorList gen k ts).getD j d
      = WeightInitializer.initTensor gen (k + offsetBefore ts j)
          (ts.getD j d) := by
  induction ts generalizing k j with
  | nil => simp at hj
  | cons t ts ih =>
      cases j with
      | zero => simp [initTensorList, offsetBefore]
      | succ j =>
          simp only [initTensorList, List.getD_cons_succ]
          have hoff : offsetBefore (t :: ts) (j + 1)
              = t.numElements + offsetBefore ts j := by
            unfold offsetBefore
            rw [List.take_succ_cons, List.map_cons, List.sum_cons]
          rw [ih (k + t.numElements) j (by simpa using hj), hoff]
          congr 1
          omega

/-- C8: RandInit aborts unless the float container is live; otherwise it
leaves everything but the float container unchanged and gives every tensor
scale 1.0 and, per tensor, one fresh generator draw per element, the j-th
tensor consuming draws offsetBefore(j) .. offsetBefore(j) +
numElements - 1 in element order. -/
theorem C8_randInit (st : ModelWeightsStorage) (gen : Nat → Int) :
    (st.float_weights = none → st.RandInit gen = none)
    ∧ ∀ fw, st.float_weights = some fw →
        ∃ fw2, st.RandInit gen = some { st with float_weights := some fw2 }
          ∧ fw2.config = fw.config
          ∧ fw2.tensors.length = fw.tensors.length
          ∧ ∀ j d, j < fw.tensors.length →
              (fw2.tensors.getD j d).scale = 1
              ∧ (fw2.tensors.getD j d).numElements
                  = (fw.tensors.getD j d).numElements
              ∧ (fw2.tensors.getD j d).data
                  = (List.range (fw.tensors.getD j d).numElements).map
                      fun i => gen (offsetBefore fw.tensors j + i) := by
  constructor
  · intro h
    simp [ModelWeightsStorage.RandInit, h]
  · intro fw hfw
    refine ⟨{ fw with tensors := initTensorList gen 0 fw.tensors }, ?_, rfl,
      initTensorList_length gen fw.tensors 0, ?_⟩
    · simp [ModelWeightsStorage.RandInit, hfw]
    · intro j d hj
      have hg := initTensorList_getD gen fw.tensors 0 j d hj
      simp only [Nat.zero_add] at hg
      simp only [hg, WeightInitializer.initTensor]
      exact ⟨trivial, trivial, trivial⟩

/-- Concrete float container for the C8 witness: two tensors of 2 and 1
elements. -/
def fwC8 : ModelWeightsPtrs :=
  { config := ModelWeightsStorage.empty.config,
    tensors := [{ numElements := 2, data := [], scale := 5 },
                { numElements := 1, data := [], scale := 7 }] }

/-- Concrete storage for the C8 witness: fwC8 live as the float variant. -/
def stC8 : ModelWeightsStorage :=
  { ModelWeightsStorage.empty with float_weights := some fwC8 }

/-- Witness for C8 on the concrete storage with the identity draw stream. -/
theorem C8_randInit_witness :
    ∃ fw2, stC8.RandInit (fun n => (n : Int))
        = some { stC8 with float_weights := some fw2 }
      ∧ fw2.config = fwC8.config
      ∧ fw2.tensors.length = fwC8.tensors.length
      ∧ ∀ j d, j < fwC8.tensors.length →
          (fw2.tensors.getD j d).scale = 1
          ∧ (fw2.tensors.getD j d).numElements
              = (fwC8.tensors.getD j d).numElements
          ∧ (fw2.tensors.getD j d).data
              = (List.range (fwC8.tensors.getD j d).numElements).map
                  fun i => ((offsetBefore fwC8.tensors j + i : Nat) : Int) :=
  (C8_randInit stC8 (fun n => (n : Int))).2 fwC8 rfl


/-- hwy::CopyBytes on float buffers, in element units: copy n elements
from src starting at srcOfs into dst starting at dstOfs. -/
def copyFloats (src : Nat → Int) (srcOfs : Nat) (dst : Nat → Int)
    (dstOfs n : Nat) : Nat → Int :=
  fun i =>
    if dstOfs ≤ i ∧ i < dstOfs + n then src (srcOfs + (i - dstOfs)) else dst i

/-- Body of the inner loop of Reshape (weights.cc lines 285-292): head h
copies qkv elements from the decompressed source at h * model_dim * qkv +
m * qkv into the output row at m * heads * qkv + h * qkv. -/
def innerStep (src : Nat → Int) (md heads qkv m : Nat) (acc : Nat → Int)
    (h : Nat) : Nat → Int :=
  copyFloats src (h * md * qkv + m * qkv) acc (m * heads * qkv + h * qkv) qkv

/-- The inner loop over h of Reshape for a fixed output row m. -/
def reshapeInner (src : Nat → Int) (md heads qkv m : Nat)
    (dst : Nat → Int) : Nat → Int :=
  (List.range heads).foldl (innerStep src md heads qkv m) dst

/-- The full loop nest of Reshape over m and h, writing att_weights_tmp. -/
def reshapeLoop (src : Nat → Int) (md heads qkv : Nat)
    (dst : Nat → Int) : Nat → Int :=
  (List.range md).foldl (fun acc m => reshapeInner src md heads qkv m acc) dst

/-- Non-uniform-quantized tensor: the compressed payload (none models a
null data pointer) and the tensor scale. -/
structure NuqTensor where
  data : Option (List Int)
  scale : Int
  deriving DecidableEq, Repr

/-- The layer dimensions Reshape reads from layer_config. -/
structure LayerConfig where
  model_dim : Nat
  heads : Nat
  qkv_dim : Nat
  deriving DecidableEq, Repr

/-- The slice of LayerWeightsPtrs of NuqStream that Reshape touches. -/
structure LayerWeightsPtrsNuq where
  layer_config : LayerConfig
  attn_vec_einsum_w : NuqTensor
  att_weights : NuqTensor
  deriving DecidableEq, Repr

/-- LayerWeightsPtrs of NuqStream Reshape from weights.cc lines 260-303.
The external compression codec (compression/compress-inl.h, out of scope)
is abstracted: dec is DecompressAndZeroPad producing the float view of a
packed payload, enc is Compress packing a float buffer of the given
element count. The fresh att_weights_tmp allocation is the all-zero
buffer; the MatStorage allocation and SetPtr pointer plumbing on entry
are address management without data content and are not modelled. A null
attn_vec_einsum_w data pointer returns immediately. -/
def LayerWeightsPtrsNuq.Reshape (dec : List Int → Nat → Int)
    (enc : (Nat → Int) → Nat → List Int) (L : LayerWeightsPtrsNuq) :
    LayerWeightsPtrsNuq :=
  match L.attn_vec_einsum_w.data with
  | none => L
  | some packed =>
      let md := L.layer_config.model_dim
      let heads := L.layer_config.heads
      let qkv := L.layer_config.qkv_dim
      let tmp := dec packed
      let out := reshapeLoop tmp md heads qkv fun _ => 0
      { L with att_weights :=
          { data := some (enc out (md * heads * qkv)),
            scale := L.attn_vec_einsum_w.scale } }

theorem innerFold_at (src : Nat → Int) (md heads qkv m : Nat)
    (dst : Nat → Int) (n h j : Nat) (hh : h < n) (hj : j < qkv) :
    ((List.range n).foldl (innerStep src md heads qkv m) dst)
        (m * heads * qkv + h * qkv + j)
      = src (h * md * qkv + m * qkv + j) := by
  induction n generalizing dst with
  | zero => omega
  | succ n ih =>
      rw [List.range_succ, List.foldl_append, List.foldl_cons, List.foldl_nil]
      by_cases hcase : h = n
      · subst hcase
        unfold innerStep copyFloats
        rw [if_pos (by omega)]
        congr 1
        omega
      · have hlt : h < n := by omega
        unfold innerStep copyFloats
        rw [if_neg ?_]
        · exact ih dst hlt
        · have he : (h + 1) * qkv = h * qkv + qkv := by ring
          have hle : (h + 1) * qkv ≤ n * qkv :=
            Nat.mul_le_mul_right qkv (by omega)
          omega

theorem innerFold_frame (src : Nat → Int) (md heads qkv m : Nat)
    (dst : Nat → Int) (n i : Nat) (hn : n ≤ heads)
    (hout : i < m * heads * qkv ∨ m * heads * qkv + heads * qkv ≤ i) :
    ((List.range n).foldl (innerStep src md heads qkv m) dst) i = dst i := by
  induction n with
  | zero => rfl
  | succ n ih =>
      rw [List.range_succ, List.foldl_append, List.foldl_cons, List.foldl_nil]
      unfold innerStep copyFloats
      rw [if_neg ?_]
      · exact ih (by omega)
      · have he : (n + 1) * qkv = n * qkv + qkv := by ring
        have hle : (n + 1) * qkv ≤ heads * qkv :=
          Nat.mul_le_mul_right qkv (by omega)
        omega

theorem reshapeLoop_at (src : Nat → Int) (md heads qkv : Nat)
    (dst : Nat → Int) (m h j : Nat) (hm : m < md) (hh : h < heads)
    (hj : j < qkv) :
    reshapeLoop src md heads qkv dst (m * heads * qkv + h * qkv + j)
      = src (h * md * qkv + m * qkv + j) := by
  unfold reshapeLoop
  have main : ∀ n, ∀ dst2 : Nat → Int, m < n → n ≤ md →
      ((List.range n).foldl (fun acc m2 => reshapeInner src md heads qkv m2 acc)
          dst2) (m * heads * qkv + h * qkv + j)
        = src (h * md * qkv + m * qkv + j) := by
    intro n
    induction n with
    | zero => omega
    | succ n ih =>
        intro dst2 hmn hnmd
        rw [List.range_succ, List.foldl_append, List.foldl_cons,
          List.foldl_nil]
        by_cases hcase : m = n
        · subst hcase
          exact innerFold_at src md heads qkv m _ heads h j hh hj
        · have hlt : m < n := by omega
          unfold reshapeInner
          rw [innerFold_frame src md heads qkv n _ heads _ (le_refl heads) ?_]
          · exact ih dst2 hlt (by omega)
          · left
            have h1 : (h + 1) * qkv = h * qkv + qkv := by ring
            have h2 : (h + 1) * qkv ≤ heads * qkv :=
              Nat.mul_le_mul_right qkv (by omega)
            have h3 : m * heads * qkv + heads * qkv
                = (m + 1) * heads * qkv := by ring
            have h4 : (m + 1) * heads * qkv ≤ n * heads * qkv :=
              Nat.mul_le_mul_right qkv
                (Nat.mul_le_mul_right heads (by omega))
            omega
  exact main md dst hm (le_refl md)

/-- C3: the non-uniform-quantized Reshape is a no-op when the source
tensor pointer is unset; otherwise it re-encodes the decoded source after
assembly, the destination scale equals the source scale, and the
assembled buffer places, for every output row m and head h, the qkv
contiguous source elements of head h at row m (source index h * model_dim
* qkv + m * qkv + j) at output index m * heads * qkv + h * qkv + j: the
[heads, model_dim, qkv] to [model_dim, heads * qkv] conversion. -/
theorem C3_reshape_nuq (dec : List Int → Nat → Int)
    (enc : (Nat → Int) → Nat → List Int) (L : LayerWeightsPtrsNuq) :
    (L.attn_vec_einsum_w.data = none → L.Reshape dec enc = L)
    ∧ ∀ packed, L.attn_vec_einsum_w.data = some packed →
        (L.Reshape dec enc).att_weights.scale = L.attn_vec_einsum_w.scale
        ∧ (L.Reshape dec enc).att_weights.data
            = some (enc
                (reshapeLoop (dec packed) L.layer_config.model_dim
                  L.layer_config.heads L.layer_config.qkv_dim fun _ => 0)
                (L.layer_config.model_dim * L.layer_config.heads
                  * L.layer_config.qkv_dim))
        ∧ ∀ m h j, m < L.layer_config.model_dim →
            h < L.layer_config.heads → j < L.layer_config.qkv_dim →
            reshapeLoop (dec packed) L.layer_config.model_dim
                L.layer_config.heads L.layer_config.qkv_dim (fun _ => 0)
                (m * L.layer_config.heads * L.layer_config.qkv_dim
                  + h * L.layer_config.qkv_dim + j)
              = dec packed (h * L.layer_config.model_dim
                  * L.layer_config.qkv_dim + m * L.layer_config.qkv_dim
                  + j) := by
  constructor
  · intro h
    unfold LayerWeightsPtrsNuq.Reshape
    rw [h]
  · intro packed hp
    refine ⟨?_, ?_, ?_⟩
    · unfold LayerWeightsPtrsNuq.Reshape
      rw [hp]
    · unfold LayerWeightsPtrsNuq.Reshape
      rw [hp]
    · intro m h j hm hh hj
      exact reshapeLoop_at (dec packed) L.layer_config.model_dim
        L.layer_config.heads L.layer_config.qkv_dim (fun _ => 0) m h j hm hh
        hj

/-- Concrete decoder for the C3 witness: read the packed list directly. -/
def decC3 (packed : List Int) : Nat → Int := fun i => packed.getD i 0

/-- Concrete encoder for the C3 witness: materialize the first n floats. -/
def encC3 (f : Nat → Int) (n : Nat) : List Int := (List.range n).map f

/-- Concrete layer for the C3 witness: model_dim = 2, heads = 2,
qkv_dim = 1, source laid out as [heads, model_dim, qkv]. -/
def layerC3 : LayerWeightsPtrsNuq :=
  { layer_config := { model_dim := 2, heads := 2, qkv_dim := 1 },
    attn_vec_einsum_w := { data := some [10, 11, 12, 13], scale := 5 },
    att_weights := { data := none, scale := 0 } }

/-- Witness for C3: on the concrete layer the reshape emits
[10, 12, 11, 13] (row m concatenates head slices) with scale 5. -/
theorem C3_reshape_nuq_witness :
    (layerC3.Reshape decC3 encC3).att_weights.data = some [10, 12, 11, 13]
    ∧ (layerC3.Reshape decC3 encC3).att_weights.scale
        = layerC3.attn_vec_einsum_w.scale
    ∧ reshapeLoop (decC3 [10, 11, 12, 13]) 2 2 1 (fun _ => 0)
        (1 * 2 * 1 + 1 * 1 + 0)
      = decC3 [10, 11, 12, 13] (1 * 2 * 1 + 1 * 1 + 0) :=
  ⟨by rfl,
    ((C3_reshape_nuq decC3 encC3 layerC3).2 [10, 11, 12, 13] rfl).1,
    ((C3_reshape_nuq decC3 encC3 layerC3).2 [10, 11, 12, 13] rfl).2.2 1 1 0
      (by decide) (by decide) (by decide)⟩

end GemmaManager
